import Mathlib

set_option maxHeartbeats 1000000

/-!
Shallow embedding of the schema emission engine of
`src/python2proto/__init__.py`.

The Python module converts a list of "model" classes (pydantic models,
dataclasses, attrs classes, TypedDicts, plain classes) into a protobuf-like
schema string.  We embed the type language that drives the translation:

* `PyType` mirrors the shapes the code inspects through the attributes
  `__origin__` and `__args__`: the scalar types of the table in
  `map_scalar_type`, `NoneType`, `Union[...]`, `List[...]`, `Dict[...]`
  (whose argument tuple may be absent, in which case the code substitutes
  `(Any, Any)`), structured model classes (referenced by an index into an
  environment), and arbitrary further types (`other`, e.g. builtins such as
  `set` or `complex`) for which every structured-convention predicate of the
  source (`is_pydantic_model`, `is_dataclass`, `is_attrs_class`,
  `is_typed_dict`, `is_regular_class`) returns `False`.
* An environment `Env` lists the structured types of one program: the class
  name together with the ordered field dictionary that `get_model_fields`
  extracts for it.  A model type is a stable handle, embedded as an index
  into this list; `getModel` resolves the handle, with an empty record for
  an index outside the environment (such a handle never arises from a real
  program and behaves like a field-less class).
* `parse_model` and `parse_fields` embed the closure `parse_model` of
  `pydantic_models_to_protos`; the mutable `visited_models` set and the
  `proto_messages` accumulator are threaded explicitly and returned.
-/

inductive PyType where
  | int
  | float
  | str
  | bool
  | bytes
  | any
  | noneT
  | union (args : List PyType)
  | list (elem : PyType)
  | dict (args : Option (PyType × PyType))
  | model (id : Nat)
  | other (tag : Nat)

/-- One environment of structured types: for each class, its `__name__` and
the ordered name-to-declared-type field dictionary of `get_model_fields`. -/
abbrev Env := List (String × List (String × PyType))

/-- Resolve a model handle.  Handles outside the environment (never produced
by a real program) resolve to a field-less record with an empty name. -/
def getModel (env : Env) (m : Nat) : String × List (String × PyType) :=
  match env.get? m with
  | some md => md
  | none => ("", [])

/-- Embedding of `map_scalar_type`: the fixed dictionary
int to int32, float to float, str to string, bool to bool, bytes to bytes,
Any to string, with `.get`-default `string` for every other key. -/
def map_scalar_type : PyType → String
  | .int => "int32"
  | .float => "float"
  | .str => "string"
  | .bool => "bool"
  | .bytes => "bytes"
  | .any => "string"
  | _ => "string"

/-- Embedding of `is_model`.  In the source, a type is a model when it is not
one of the scalar literals and satisfies one of the five structured
conventions; in the embedding exactly the `model` handles qualify (unions,
lists, dicts are typing generic aliases and fail every convention predicate,
and `other` covers the remaining non-model types). -/
def is_model : PyType → Bool
  | .model _ => true
  | _ => false

/-- The membership test `py_type in (int, float, str, bool, bytes, Any)`
used by `is_model` and `map_type`. -/
def isScalarLit : PyType → Bool
  | .int | .float | .str | .bool | .bytes | .any => true
  | _ => false

/-- Embedding of `map_type`: scalar literals via the table, models by their
own name, and `string` for every other type. -/
def map_type (env : Env) (t : PyType) : String :=
  if isScalarLit t then map_scalar_type t
  else
    match t with
    | .model j => (getModel env j).1
    | _ => "string"

/-- Python's `str.strip()`: remove leading and trailing whitespace. -/
def pyStrip (s : String) : String :=
  String.mk (((s.data.dropWhile Char.isWhitespace).reverse.dropWhile
    Char.isWhitespace).reverse)

/-- The identity test `arg is type(None)` of the source. -/
def isNoneType : PyType → Bool
  | .noneT => true
  | _ => false

/-- The Optional/List arms of the per-field `if`/`elif` chain of
`parse_model`, hoisted into a function: given the declared field type it
returns the `repeated` flag together with the effective type the chain leaves
in `field_type`.  A union containing `NoneType` is stripped of every
`NoneType` member and replaced by its first remaining member (or `Any` when
none remains); a union without `NoneType` is left untouched; a list is marked
repeated and replaced by its element; everything else passes through.  The
`optional` flag the source computes alongside is never read afterwards and is
not modelled. -/
def unwrap_field : PyType → Bool × PyType
  | .union args =>
      if args.any isNoneType then
        (false, (args.filter (fun a => !(isNoneType a))).headD PyType.any)
      else (false, .union args)
  | .list e => (true, e)
  | .dict args => (false, .dict args)
  | .int => (false, .int)
  | .float => (false, .float)
  | .str => (false, .str)
  | .bool => (false, .bool)
  | .bytes => (false, .bytes)
  | .any => (false, .any)
  | .noneT => (false, .noneT)
  | .model i => (false, .model i)
  | .other tag => (false, .other tag)

/-- The model handle, if any, on which `parse_model` recurses for a field of
the given declared type: for a dict field the value type when it is a model,
otherwise the effective type after `unwrap_field` when it is a model. -/
def fieldTarget (t : PyType) : Option Nat :=
  match t with
  | .dict args =>
      match (args.getD (.any, .any)).2 with
      | .model j => some j
      | _ => none
  | _ =>
      match (unwrap_field t).2 with
      | .model j => some j
      | _ => none

/-- The text of the field line that `parse_model` builds for one field,
as a function of the environment, the field name, the declared type and the
running index.  This is the rendering part of the loop body, which does not
depend on the visited set or the accumulator. -/
def renderFieldLine (env : Env) (field_name : String) (field_type : PyType)
    (idx : Nat) : String :=
  match field_type with
  | .dict args =>
      let kv := args.getD (.any, .any)
      let key_type_name :=
        match kv.1 with
        | .int | .float | .str | .bool => map_scalar_type kv.1
        | _ => "string"
      let value_type_name :=
        match kv.2 with
        | .model j => (getModel env j).1
        | _ => map_type env kv.2
      "map<" ++ key_type_name ++ ", " ++ value_type_name ++ "> " ++
        field_name ++ " = " ++ toString idx ++ ";"
  | _ =>
      let eff := (unwrap_field field_type).2
      let field_type_name :=
        match eff with
        | .model j => (getModel env j).1
        | _ => map_type env eff
      let field_rule :=
        if (unwrap_field field_type).1 then "repeated" else ""
      pyStrip (field_rule ++ " " ++ field_type_name ++ " " ++ field_name ++
        " = " ++ toString idx ++ ";")

/-- The list of rendered field lines for a field list, the index counter
starting at `idx` and increasing by one per field. -/
def fieldLinesFrom (env : Env) : List (String × PyType) → Nat → List String
  | [], _ => []
  | f :: fs, idx => renderFieldLine env f.1 f.2 idx :: fieldLinesFrom env fs (idx + 1)

/-- The message text `parse_model` assembles for model `m` under message name
`nm`: header, one indented line per field with a trailing semicolon appended
to the (already semicolon-terminated) field line, and the closing brace. -/
def msgText (env : Env) (nm : String) (m : Nat) : String :=
  "message " ++ nm ++ " \x7b\n" ++
    String.join ((fieldLinesFrom env (getModel env m).2 1).map
      (fun f => "    " ++ f ++ ";\n")) ++ "\x7d\n"

/-- The message text emitted for model `m` under its own name. -/
def messageFor (env : Env) (m : Nat) : String :=
  msgText env (getModel env m).1 m

mutual

/-- All model handles occurring syntactically in a type. -/
def PyType.ids : PyType → Finset Nat
  | .model i => {i}
  | .list e => e.ids
  | .dict (some kv) => kv.1.ids ∪ kv.2.ids
  | .dict none => ∅
  | .union args => idsList args
  | .int => ∅
  | .float => ∅
  | .str => ∅
  | .bool => ∅
  | .bytes => ∅
  | .any => ∅
  | .noneT => ∅
  | .other _ => ∅

/-- All model handles occurring in a list of types. -/
def idsList : List PyType → Finset Nat
  | [] => ∅
  | t :: ts => t.ids ∪ idsList ts

end

/-- All model handles occurring in a field list. -/
def fieldIds : List (String × PyType) → Finset Nat
  | [] => ∅
  | f :: fs => f.2.ids ∪ fieldIds fs

/-- All model handles occurring in an environment's field lists. -/
def envIds : Env → Finset Nat
  | [] => ∅
  | e :: es => fieldIds e.2 ∪ envIds es

/-- The finite universe of model handles reachable while emitting from an
environment: every handle of the environment itself plus every handle
mentioned in a field type.  Used as the termination measure support. -/
def allIds (env : Env) : Finset Nat :=
  Finset.range env.length ∪ envIds env

lemma mem_idsList {args : List PyType} {t : PyType} (ht : t ∈ args) :
    t.ids ⊆ idsList args := by
  induction args with
  | nil => cases ht
  | cons a as ih =>
      rcases List.mem_cons.mp ht with h | h
      · subst h
        simp only [idsList]
        exact Finset.subset_union_left
      · simp only [idsList]
        exact (ih h).trans Finset.subset_union_right

lemma ids_of_dict_value {args : Option (PyType × PyType)} {j : Nat}
    (hv : (args.getD (.any, .any)).2 = .model j) :
    j ∈ (PyType.dict args).ids := by
  cases args with
  | none => simp [Option.getD] at hv
  | some kv =>
      simp only [Option.getD] at hv
      simp [PyType.ids, hv]

lemma ids_of_unwrap {t : PyType} {j : Nat}
    (hv : (unwrap_field t).2 = .model j) : j ∈ t.ids := by
  cases t with
  | union args =>
      simp only [unwrap_field] at hv
      by_cases hn : args.any isNoneType
      · rw [if_pos hn] at hv
        simp only at hv
        cases hl : (args.filter (fun a => !(isNoneType a))) with
        | nil => rw [hl] at hv; simp [List.headD] at hv
        | cons x xs =>
            rw [hl] at hv
            simp only [List.headD] at hv
            have hx : x ∈ args :=
              List.mem_of_mem_filter (hl ▸ List.mem_cons_self x xs)
            have hsub := mem_idsList hx
            rw [hv] at hsub
            have : j ∈ PyType.ids (PyType.model j) := by
              simp [PyType.ids]
            simpa [PyType.ids] using hsub this
      · rw [if_neg hn] at hv
        simp at hv
  | list e =>
      simp only [unwrap_field] at hv
      simp [PyType.ids, hv]
  | model i =>
      simp only [unwrap_field] at hv
      cases hv
      simp [PyType.ids]
  | int => simp [unwrap_field] at hv
  | float => simp [unwrap_field] at hv
  | str => simp [unwrap_field] at hv
  | bool => simp [unwrap_field] at hv
  | bytes => simp [unwrap_field] at hv
  | any => simp [unwrap_field] at hv
  | noneT => simp [unwrap_field] at hv
  | dict args => simp [unwrap_field] at hv
  | other tag => simp [unwrap_field] at hv

lemma mem_fieldIds {fs : List (String × PyType)} {f : String × PyType}
    (hf : f ∈ fs) : f.2.ids ⊆ fieldIds fs := by
  induction fs with
  | nil => cases hf
  | cons a as ih =>
      rcases List.mem_cons.mp hf with h | h
      · subst h
        simp only [fieldIds]
        exact Finset.subset_union_left
      · simp only [fieldIds]
        exact (ih h).trans Finset.subset_union_right

lemma mem_envIds {env : Env} {e : String × List (String × PyType)}
    (he : e ∈ env) : fieldIds e.2 ⊆ envIds env := by
  induction env with
  | nil => cases he
  | cons a as ih =>
      rcases List.mem_cons.mp he with h | h
      · subst h
        simp only [envIds]
        exact Finset.subset_union_left
      · simp only [envIds]
        exact (ih h).trans Finset.subset_union_right

/-- A model handle mentioned in some field of a resolvable model lies inside
the termination-measure support. -/
lemma mem_allIds_of_field {env : Env} {m k : Nat} {fd : String × PyType}
    {j : Nat} (hk : (getModel env m).2.get? k = some fd)
    (hj : j ∈ fd.2.ids) : j ∈ allIds env := by
  unfold getModel at hk
  cases hm : env.get? m with
  | none => rw [hm] at hk; simp at hk
  | some md =>
      rw [hm] at hk
      have hmem : fd ∈ md.2 := List.get?_mem hk
      have h1 : fd.2.ids ⊆ fieldIds md.2 := mem_fieldIds hmem
      have h2 : fieldIds md.2 ⊆ envIds env := mem_envIds (List.get?_mem hm)
      exact Finset.mem_union_right _ (h2 (h1 hj))

lemma card_sdiff_lt_of_insert {S vis : Finset Nat} {m : Nat} (hm : m ∉ vis) :
    (S \ insert m vis).card < ((S ∪ {m}) \ vis).card := by
  apply Finset.card_lt_card
  rw [Finset.ssubset_def]
  constructor
  · intro x hx
    simp only [Finset.mem_sdiff, Finset.mem_insert, not_or] at hx
    simp only [Finset.mem_sdiff, Finset.mem_union, Finset.mem_singleton]
    exact ⟨Or.inl hx.1, hx.2.2⟩
  · intro hsub
    have hmem : m ∈ (S ∪ {m}) \ vis := by
      simp [Finset.mem_sdiff, hm]
    have := hsub hmem
    simp [Finset.mem_sdiff, Finset.mem_insert] at this

lemma absorb_allIds {S : Finset Nat} {j : Nat} (hj : j ∈ S) :
    S ∪ {j} = S := by
  rw [Finset.union_eq_left]
  simpa using hj

lemma lex_model_step {S vis : Finset Nat} {j : Nat} (hj : j ∈ S) (c : Nat) :
    Prod.Lex (fun a₁ a₂ : Nat => a₁ < a₂)
      (Prod.Lex (fun a₁ a₂ : Nat => a₁ < a₂) (fun a₁ a₂ : Nat => a₁ < a₂))
      (((S ∪ {j}) \ vis).card, 0, 0) ((S \ vis).card, 1, c) := by
  rw [absorb_allIds hj]
  exact Prod.Lex.right _ (Prod.Lex.left _ _ Nat.zero_lt_one)

lemma lex_tail_step {S vis W : Finset Nat} (hW : vis ⊆ W) {c₁ c₂ : Nat}
    (hc : c₁ < c₂) :
    Prod.Lex (fun a₁ a₂ : Nat => a₁ < a₂)
      (Prod.Lex (fun a₁ a₂ : Nat => a₁ < a₂) (fun a₁ a₂ : Nat => a₁ < a₂))
      ((S \ W).card, 1, c₁) ((S \ vis).card, 1, c₂) := by
  have hle : (S \ W).card ≤ (S \ vis).card :=
    Finset.card_le_card (Finset.sdiff_subset_sdiff (Finset.Subset.refl _) hW)
  rcases lt_or_eq_of_le hle with hlt | heq
  · exact Prod.Lex.left _ _ hlt
  · rw [heq]
    exact Prod.Lex.right _ (Prod.Lex.right _ hc)

mutual

/-- Embedding of the closure `parse_model(model, message_name)` of
`pydantic_models_to_protos`.  The mutable `visited_models` set and the
`proto_messages` accumulator become the explicit `visited` and `acc`
arguments; the returned pair is their state after the call.  The body
mirrors the source: return unchanged when the model was already visited,
otherwise mark it visited before touching any field, run the field loop
(`parse_fields`), then assemble the message text and append it. -/
def parse_model (env : Env) (m : Nat) (message_name : String)
    (visited : Finset Nat) (acc : List String) : Finset Nat × List String :=
  if hmv : m ∈ visited then (visited, acc)
  else
    let r := parse_fields env m 0 (insert m visited) acc [] 1
    let message := "message " ++ message_name ++ " \x7b\n" ++
      String.join (r.2.2.map (fun f => "    " ++ f ++ ";\n")) ++ "\x7d\n"
    (r.1, r.2.1 ++ [message])
termination_by (((allIds env ∪ {m}) \ visited).card, 0, 0)
decreasing_by
  simp_wf
  apply Prod.Lex.left
  exact card_sdiff_lt_of_insert hmv

/-- Embedding of the `for field_name, field_type in type_hints.items()` loop
of `parse_model`, iterating from position `k` of the field dictionary of
model `m`.  `fields` is the list of rendered field lines built so far and
`idx` the running field index.  The value branch of a map field and the
nested-model branch of an ordinary field recurse into `parse_model` (under
the nested model's own name) exactly as the source does; the chain that
handles Optional and List is `unwrap_field`.  Returns the final visited set,
accumulator, and field-line list. -/
def parse_fields (env : Env) (m : Nat) (k : Nat) (visited : Finset Nat)
    (acc : List String) (fields : List String) (idx : Nat) :
    Finset Nat × List String × List String :=
  match hk : (getModel env m).2.get? k with
  | none => (visited, acc, fields)
  | some fd =>
      let field_name := fd.1
      match hft : fd.2 with
      | .dict args =>
          let kv := args.getD (.any, .any)
          let key_type_name :=
            match kv.1 with
            | .int | .float | .str | .bool => map_scalar_type kv.1
            | _ => "string"
          let rv : Finset Nat × List String × String :=
            match hv : kv.2 with
            | .model j =>
                let r := parse_model env j (getModel env j).1 visited acc
                (r.1, r.2, (getModel env j).1)
            | _ => (visited, acc, map_type env kv.2)
          let field_line := "map<" ++ key_type_name ++ ", " ++ rv.2.2 ++
            "> " ++ field_name ++ " = " ++ toString idx ++ ";"
          parse_fields env m (k + 1) (visited ∪ rv.1) rv.2.1
            (fields ++ [field_line]) (idx + 1)
      | _ =>
          let eff := (unwrap_field fd.2).2
          let rv : Finset Nat × List String × String :=
            match hv : eff with
            | .model j =>
                let r := parse_model env j (getModel env j).1 visited acc
                (r.1, r.2, (getModel env j).1)
            | _ => (visited, acc, map_type env eff)
          let field_rule := if (unwrap_field fd.2).1 then "repeated" else ""
          let field_line := pyStrip (field_rule ++ " " ++ rv.2.2 ++ " " ++
            field_name ++ " = " ++ toString idx ++ ";")
          parse_fields env m (k + 1) (visited ∪ rv.1) rv.2.1
            (fields ++ [field_line]) (idx + 1)
termination_by ((allIds env \ visited).card, 1, (getModel env m).2.length - k)
decreasing_by
  · simp_wf
    have hj : j ∈ allIds env := by
      apply mem_allIds_of_field hk
      rw [hft]
      exact ids_of_dict_value hv
    exact lex_model_step hj _
  · simp_wf
    have hklen : k < (getModel env m).2.length := by
      by_contra h
      rw [List.get?_eq_none.mpr (Nat.le_of_not_lt h)] at hk
      cases hk
    exact lex_tail_step Finset.subset_union_left (by omega)
  · simp_wf
    have hj : j ∈ allIds env := by
      apply mem_allIds_of_field hk
      exact ids_of_unwrap hv
    exact lex_model_step hj _
  · simp_wf
    have hklen : k < (getModel env m).2.length := by
      by_contra h
      rw [List.get?_eq_none.mpr (Nat.le_of_not_lt h)] at hk
      cases hk
    exact lex_tail_step Finset.subset_union_left (by omega)

end

/-- The `for model in models` loop of `pydantic_models_to_protos`: emit each
requested model under its own name, threading the visited set and the
accumulator. -/
def protos_core (env : Env) (models : List Nat) (visited : Finset Nat)
    (acc : List String) : Finset Nat × List String :=
  match models with
  | [] => (visited, acc)
  | m :: rest =>
      let r := parse_model env m (getModel env m).1 visited acc
      protos_core env rest r.1 r.2

/-- The initialization `visited_models = already_visited or set()`: `None`
and an empty caller set are falsy and replaced by a fresh empty set; a
non-empty caller set is used as is (and, in Python, aliased). -/
def initial_visited : Option (Finset Nat) → Finset Nat
  | none => ∅
  | some s => if s = ∅ then ∅ else s

/-- Embedding of `pydantic_models_to_protos(models, already_visited)`: run
the emitter over all requested models, then join the reversed accumulator
with a newline between consecutive messages (each message text already ends
in a newline, so consecutive messages are separated by a blank line). -/
def pydantic_models_to_protos (env : Env) (models : List Nat)
    (already_visited : Option (Finset Nat)) : String :=
  String.intercalate "\n"
    ((protos_core env models (initial_visited already_visited) []).2.reverse)

/-- The caller's `already_visited` set object after a call of
`pydantic_models_to_protos(models, already_visited=s)`.  Python's
`already_visited or set()` discards an empty (falsy) caller set, which is
then left untouched, while a truthy (non-empty) set becomes
`visited_models` itself, so every mutation of the visited set during the
call lands in the caller's object. -/
def caller_visited_after (env : Env) (models : List Nat) (s : Finset Nat) :
    Finset Nat :=
  if s = ∅ then s else (protos_core env models s []).1

lemma parse_model_visited {env : Env} {m : Nat} {nm : String}
    {vis : Finset Nat} {acc : List String} (h : m ∈ vis) :
    parse_model env m nm vis acc = (vis, acc) := by
  rw [parse_model.eq_1, dif_pos h]

lemma parse_model_not_visited {env : Env} {m : Nat} {nm : String}
    {vis : Finset Nat} {acc : List String} (h : m ∉ vis) :
    parse_model env m nm vis acc =
      ((parse_fields env m 0 (insert m vis) acc [] 1).1,
        (parse_fields env m 0 (insert m vis) acc [] 1).2.1 ++
          ["message " ++ nm ++ " \x7b\n" ++
            String.join ((parse_fields env m 0 (insert m vis) acc [] 1).2.2.map
              (fun f => "    " ++ f ++ ";\n")) ++ "\x7d\n"]) := by
  rw [parse_model.eq_1, dif_neg h]

lemma parse_fields_past_end {env : Env} {m k : Nat} {vis : Finset Nat}
    {acc fields : List String} {idx : Nat}
    (h : (getModel env m).2.get? k = none) :
    parse_fields env m k vis acc fields idx = (vis, acc, fields) := by
  rw [parse_fields.eq_1]
  split
  · rfl
  · next fd heq => rw [h] at heq; cases heq
lemma parse_fields_dict_model {env : Env} {m k : Nat} {vis : Finset Nat}
    {acc fields : List String} {idx : Nat} {fd : String × PyType}
    {args : Option (PyType × PyType)} {j : Nat}
    (hk : (getModel env m).2.get? k = some fd)
    (hft : fd.2 = PyType.dict args)
    (hv : (args.getD (.any, .any)).2 = .model j) :
    parse_fields env m k vis acc fields idx =
      parse_fields env m (k + 1)
        (vis ∪ (parse_model env j (getModel env j).1 vis acc).1)
        (parse_model env j (getModel env j).1 vis acc).2
        (fields ++ [renderFieldLine env fd.1 fd.2 idx]) (idx + 1) := by
  rw [parse_fields.eq_1]
  split
  · next heq => rw [hk] at heq; cases heq
  · next fd2 heq =>
      rw [hk] at heq
      injection heq with heq2
      subst heq2
      split
      · next args2 hft2 =>
          rw [hft] at hft2
          injection hft2 with hft3
          subst hft3
          dsimp only
          split
          · next j2 hv2 =>
              rw [hv] at hv2
              injection hv2 with hv3
              subst hv3
              simp [renderFieldLine, hft, hv]
          · next hno =>
              exact absurd hv (by simpa using hno j)
      · next hother =>
          exact absurd hft (by simpa using hother args)

lemma parse_fields_dict_plain {env : Env} {m k : Nat} {vis : Finset Nat}
    {acc fields : List String} {idx : Nat} {fd : String × PyType}
    {args : Option (PyType × PyType)}
    (hk : (getModel env m).2.get? k = some fd)
    (hft : fd.2 = PyType.dict args)
    (hv : ∀ j, (args.getD (.any, .any)).2 ≠ PyType.model j) :
    parse_fields env m k vis acc fields idx =
      parse_fields env m (k + 1) vis acc
        (fields ++ [renderFieldLine env fd.1 fd.2 idx]) (idx + 1) := by
  rw [parse_fields.eq_1]
  split
  · next heq => rw [hk] at heq; cases heq
  · next fd2 heq =>
      rw [hk] at heq
      injection heq with heq2
      subst heq2
      split
      · next args2 hft2 =>
          rw [hft] at hft2
          injection hft2 with hft3
          subst hft3
          dsimp only
          split
          · next j2 hv2 => exact absurd hv2 (hv j2)
          · next =>
              dsimp only
              rw [Finset.union_self]
              simp only [renderFieldLine, hft]
      · next hother =>
          exact absurd hft (by simpa using hother args)

lemma renderFieldLine_not_dict {env : Env} {fn : String} {ft : PyType}
    {idx : Nat} (hnd : ∀ args, ft ≠ PyType.dict args) :
    renderFieldLine env fn ft idx =
      pyStrip ((if (unwrap_field ft).1 then "repeated" else "") ++ " " ++
        (match (unwrap_field ft).2 with
         | PyType.model j => (getModel env j).1
         | _ => map_type env (unwrap_field ft).2) ++ " " ++ fn ++ " = " ++
        toString idx ++ ";") := by
  cases ft <;>
    first
      | rfl
      | exact absurd rfl (hnd _)

lemma renderFieldLine_plain_model {env : Env} {fn : String} {ft : PyType}
    {idx j : Nat} (hnd : ∀ args, ft ≠ PyType.dict args)
    (hv : (unwrap_field ft).2 = PyType.model j) :
    renderFieldLine env fn ft idx =
      pyStrip ((if (unwrap_field ft).1 then "repeated" else "") ++ " " ++
        (getModel env j).1 ++ " " ++ fn ++ " = " ++ toString idx ++ ";") := by
  rw [renderFieldLine_not_dict hnd, hv]

lemma renderFieldLine_plain_other {env : Env} {fn : String} {ft : PyType}
    {idx : Nat} (hnd : ∀ args, ft ≠ PyType.dict args)
    (hv : ∀ j, (unwrap_field ft).2 ≠ PyType.model j) :
    renderFieldLine env fn ft idx =
      pyStrip ((if (unwrap_field ft).1 then "repeated" else "") ++ " " ++
        map_type env (unwrap_field ft).2 ++ " " ++ fn ++ " = " ++
        toString idx ++ ";") := by
  rw [renderFieldLine_not_dict hnd]
  rcases hD : (unwrap_field ft).2 <;>
    first
      | exact absurd hD (hv _)
      | rfl

lemma parse_fields_plain_model {env : Env} {m k : Nat} {vis : Finset Nat}
    {acc fields : List String} {idx : Nat} {fd : String × PyType} {j : Nat}
    (hk : (getModel env m).2.get? k = some fd)
    (hnd : ∀ args, fd.2 ≠ PyType.dict args)
    (hv : (unwrap_field fd.2).2 = .model j) :
    parse_fields env m k vis acc fields idx =
      parse_fields env m (k + 1)
        (vis ∪ (parse_model env j (getModel env j).1 vis acc).1)
        (parse_model env j (getModel env j).1 vis acc).2
        (fields ++ [renderFieldLine env fd.1 fd.2 idx]) (idx + 1) := by
  rw [parse_fields.eq_1]
  split
  · next heq => rw [hk] at heq; cases heq
  · next fd2 heq =>
      rw [hk] at heq
      injection heq with heq2
      subst heq2
      split
      · next args2 hft2 => exact absurd hft2 (hnd args2)
      · next =>
          dsimp only
          split
          · next j2 hv2 =>
              rw [hv] at hv2
              injection hv2 with hv3
              subst hv3
              rw [renderFieldLine_plain_model hnd hv]
          · next hno => exact absurd hv (by simpa using hno j)

lemma parse_fields_plain_other {env : Env} {m k : Nat} {vis : Finset Nat}
    {acc fields : List String} {idx : Nat} {fd : String × PyType}
    (hk : (getModel env m).2.get? k = some fd)
    (hnd : ∀ args, fd.2 ≠ PyType.dict args)
    (hv : ∀ j, (unwrap_field fd.2).2 ≠ PyType.model j) :
    parse_fields env m k vis acc fields idx =
      parse_fields env m (k + 1) vis acc
        (fields ++ [renderFieldLine env fd.1 fd.2 idx]) (idx + 1) := by
  rw [parse_fields.eq_1]
  split
  · next heq => rw [hk] at heq; cases heq
  · next fd2 heq =>
      rw [hk] at heq
      injection heq with heq2
      subst heq2
      split
      · next args2 hft2 => exact absurd hft2 (hnd args2)
      · next =>
          dsimp only
          split
          · next j2 hv2 => exact absurd hv2 (hv j2)
          · next =>
              rw [Finset.union_self]
              rw [renderFieldLine_plain_other hnd hv]

lemma card_sdiff_chain {A B C : Finset Nat} (hAB : A ⊆ B) (hBC : B ⊆ C) :
    (C \ A).card = (B \ A).card + (C \ B).card := by
  rw [Finset.card_sdiff hAB, Finset.card_sdiff hBC,
    Finset.card_sdiff (hAB.trans hBC)]
  have h1 := Finset.card_le_card hAB
  have h2 := Finset.card_le_card hBC
  omega

lemma card_sdiff_insert_add_one {C vis : Finset Nat} {m : Nat} (hm : m ∉ vis)
    (hsub : insert m vis ⊆ C) :
    (C \ vis).card = (C \ insert m vis).card + 1 := by
  rw [Finset.sdiff_insert]
  have hmem : m ∈ C \ vis := by
    simp [Finset.mem_sdiff, hsub (Finset.mem_insert_self m vis), hm]
  rw [Finset.card_erase_of_mem hmem]
  have hpos : 0 < (C \ vis).card := Finset.card_pos.mpr ⟨m, hmem⟩
  omega

/-- Joint invariant of one `parse_model` call: the visited set only grows,
the model itself ends up visited, the accumulator gains exactly one message
per newly visited model handle, an already-visited model is a no-op, and for
a fresh model the accumulator gains the nested models' messages followed by
this model's own message text under the supplied message name. -/
def ModelInv (env : Env) (m : Nat) (nm : String) (vis : Finset Nat)
    (acc : List String) : Prop :=
  vis ⊆ (parse_model env m nm vis acc).1 ∧
  m ∈ (parse_model env m nm vis acc).1 ∧
  (parse_model env m nm vis acc).2.length =
    acc.length + ((parse_model env m nm vis acc).1 \ vis).card ∧
  (m ∈ vis → parse_model env m nm vis acc = (vis, acc)) ∧
  (m ∉ vis → ∃ new,
    (parse_model env m nm vis acc).2 = acc ++ new ++ [msgText env nm m] ∧
    ∀ i ∈ (parse_model env m nm vis acc).1, i ∉ vis → i ≠ m →
      messageFor env i ∈ new)

/-- Joint invariant of the field loop from position `k`: visited grows, one
message per newly visited handle, every message added belongs to the handle
it was emitted for, the rendered lines are exactly the remaining fields with
consecutive indices, and the target of every remaining field ends up
visited. -/
def FieldsInv (env : Env) (m k : Nat) (vis : Finset Nat)
    (acc fields : List String) (idx : Nat) : Prop :=
  vis ⊆ (parse_fields env m k vis acc fields idx).1 ∧
  (parse_fields env m k vis acc fields idx).2.1.length =
    acc.length + ((parse_fields env m k vis acc fields idx).1 \ vis).card ∧
  (∃ new, (parse_fields env m k vis acc fields idx).2.1 = acc ++ new ∧
    ∀ i ∈ (parse_fields env m k vis acc fields idx).1, i ∉ vis →
      messageFor env i ∈ new) ∧
  (parse_fields env m k vis acc fields idx).2.2 =
    fields ++ fieldLinesFrom env ((getModel env m).2.drop k) idx ∧
  (∀ k2 fd j, k ≤ k2 → (getModel env m).2.get? k2 = some fd →
    fieldTarget fd.2 = some j →
    j ∈ (parse_fields env m k vis acc fields idx).1)

lemma modelInv_of_mem {env : Env} {m : Nat} {nm : String} {vis : Finset Nat}
    {acc : List String} (h : m ∈ vis) : ModelInv env m nm vis acc := by
  have he : parse_model env m nm vis acc = (vis, acc) := parse_model_visited h
  unfold ModelInv
  rw [he]
  exact ⟨Finset.Subset.refl _, h, by simp, fun _ => rfl, fun hc => absurd h hc⟩

lemma fieldsInv_past_end {env : Env} {m k : Nat} {vis : Finset Nat}
    {acc fields : List String} {idx : Nat}
    (h : (getModel env m).2.get? k = none) :
    FieldsInv env m k vis acc fields idx := by
  have hlen : (getModel env m).2.length ≤ k := List.get?_eq_none.mp h
  have he : parse_fields env m k vis acc fields idx = (vis, acc, fields) :=
    parse_fields_past_end h
  unfold FieldsInv
  rw [he]
  refine ⟨Finset.Subset.refl _, by simp, ⟨[], by simp, ?_⟩, ?_, ?_⟩
  · intro i hi hni
    exact absurd hi hni
  · rw [List.drop_eq_nil_of_le hlen]
    simp [fieldLinesFrom]
  · intro k2 fd j hk2 hget _
    have : (getModel env m).2.get? k2 = none :=
      List.get?_eq_none.mpr (hlen.trans hk2)
    rw [this] at hget
    cases hget
lemma modelInv_of_fieldsInv {env : Env} {m : Nat} {nm : String}
    {vis : Finset Nat} {acc : List String} (h : m ∉ vis)
    (hF : FieldsInv env m 0 (insert m vis) acc [] 1) :
    ModelInv env m nm vis acc := by
  obtain ⟨hsub, hlen, ⟨new, hacc, hmem⟩, hflds, _⟩ := hF
  have he := @parse_model_not_visited env m nm vis acc h
  have hmsg : "message " ++ nm ++ " \x7b\n" ++
      String.join ((parse_fields env m 0 (insert m vis) acc [] 1).2.2.map
        (fun f => "    " ++ f ++ ";\n")) ++ "\x7d\n" = msgText env nm m := by
    rw [hflds]
    simp [msgText, List.drop_zero]
  rw [hmsg] at he
  unfold ModelInv
  rw [he]
  dsimp only
  have hminF : m ∈ (parse_fields env m 0 (insert m vis) acc [] 1).1 :=
    hsub (Finset.mem_insert_self m vis)
  refine ⟨(Finset.subset_insert m vis).trans hsub, hminF, ?_, ?_, ?_⟩
  · rw [List.length_append, hlen, card_sdiff_insert_add_one h hsub]
    exact Nat.add_assoc _ _ _
  · intro hc
    exact absurd hc h
  · intro _
    refine ⟨new, by rw [hacc, List.append_assoc], ?_⟩
    intro i hi hivis him
    refine hmem i hi ?_
    simp [Finset.mem_insert, him, hivis]
lemma fieldsInv_step_general {env : Env} {m k : Nat} {vis : Finset Nat}
    {acc fields : List String} {idx : Nat} {fd : String × PyType}
    {W : Finset Nat} {acc2 : List String}
    (hk : (getModel env m).2.get? k = some fd)
    (heq : parse_fields env m k vis acc fields idx =
      parse_fields env m (k + 1) W acc2
        (fields ++ [renderFieldLine env fd.1 fd.2 idx]) (idx + 1))
    (hWsub : vis ⊆ W)
    (hlen2 : acc2.length = acc.length + (W \ vis).card)
    (hnew : ∃ new0, acc2 = acc ++ new0 ∧
      ∀ i ∈ W, i ∉ vis → messageFor env i ∈ new0)
    (htarget : ∀ j, fieldTarget fd.2 = some j → j ∈ W)
    (hF : FieldsInv env m (k + 1) W acc2
      (fields ++ [renderFieldLine env fd.1 fd.2 idx]) (idx + 1)) :
    FieldsInv env m k vis acc fields idx := by
  obtain ⟨new0, hacc2, hmem0⟩ := hnew
  obtain ⟨hsub2, hlen3, ⟨new2, hacc3, hmem2⟩, hflds2, htgt2⟩ := hF
  have hklen : k < (getModel env m).2.length := by
    by_contra hc
    rw [List.get?_eq_none.mpr (Nat.le_of_not_lt hc)] at hk
    cases hk
  have hdrop : (getModel env m).2.drop k = fd :: (getModel env m).2.drop (k + 1) := by
    rw [List.drop_eq_getElem_cons hklen]
    have : (getModel env m).2.get? k = some ((getModel env m).2[k]) := by
      rw [List.get?_eq_getElem?, List.getElem?_eq_getElem hklen]
    rw [this] at hk
    injection hk with hk2
    rw [hk2]
  unfold FieldsInv
  rw [heq]
  refine ⟨hWsub.trans hsub2, ?_, ?_, ?_, ?_⟩
  · rw [hlen3, hlen2, card_sdiff_chain hWsub hsub2]
    exact Nat.add_assoc _ _ _
  · refine ⟨new0 ++ new2, by rw [hacc3, hacc2, List.append_assoc], ?_⟩
    intro i hi hivis
    by_cases hiW : i ∈ W
    · exact List.mem_append_left _ (hmem0 i hiW hivis)
    · exact List.mem_append_right _ (hmem2 i hi hiW)
  · rw [hflds2, hdrop, List.append_assoc]
    have : fieldLinesFrom env (fd :: (getModel env m).2.drop (k + 1)) idx =
        renderFieldLine env fd.1 fd.2 idx ::
          fieldLinesFrom env ((getModel env m).2.drop (k + 1)) (idx + 1) := rfl
    rw [this]
    rfl
  · intro k2 fd2 j hk2le hk2 htg
    rcases Nat.lt_or_ge k k2 with hlt | hge
    · exact htgt2 k2 fd2 j hlt hk2 htg
    · have hkk : k2 = k := Nat.le_antisymm (Nat.le_of_not_lt (by omega)) hk2le
      subst hkk
      rw [hk] at hk2
      injection hk2 with hfd2
      subst hfd2
      exact hsub2 (htarget j htg)
lemma fieldsInv_step_plain {env : Env} {m k : Nat} {vis : Finset Nat}
    {acc fields : List String} {idx : Nat} {fd : String × PyType}
    (hk : (getModel env m).2.get? k = some fd)
    (hnone : fieldTarget fd.2 = none)
    (heq : parse_fields env m k vis acc fields idx =
      parse_fields env m (k + 1) vis acc
        (fields ++ [renderFieldLine env fd.1 fd.2 idx]) (idx + 1))
    (hF : FieldsInv env m (k + 1) vis acc
      (fields ++ [renderFieldLine env fd.1 fd.2 idx]) (idx + 1)) :
    FieldsInv env m k vis acc fields idx :=
  fieldsInv_step_general hk heq (Finset.Subset.refl _) (by simp)
    ⟨[], by simp, fun i hi hni => absurd hi hni⟩
    (fun j hj => by rw [hnone] at hj; cases hj) hF

lemma fieldsInv_step_model {env : Env} {m k : Nat} {vis : Finset Nat}
    {acc fields : List String} {idx : Nat} {fd : String × PyType} {j : Nat}
    (hk : (getModel env m).2.get? k = some fd)
    (htgt : fieldTarget fd.2 = some j)
    (heq : parse_fields env m k vis acc fields idx =
      parse_fields env m (k + 1)
        (vis ∪ (parse_model env j (getModel env j).1 vis acc).1)
        (parse_model env j (getModel env j).1 vis acc).2
        (fields ++ [renderFieldLine env fd.1 fd.2 idx]) (idx + 1))
    (hM : ModelInv env j (getModel env j).1 vis acc)
    (hF : FieldsInv env m (k + 1)
      (vis ∪ (parse_model env j (getModel env j).1 vis acc).1)
      (parse_model env j (getModel env j).1 vis acc).2
      (fields ++ [renderFieldLine env fd.1 fd.2 idx]) (idx + 1)) :
    FieldsInv env m k vis acc fields idx := by
  obtain ⟨hsubM, hjM, hlenM, hvisM, hfreshM⟩ := hM
  have hun : vis ∪ (parse_model env j (getModel env j).1 vis acc).1 =
      (parse_model env j (getModel env j).1 vis acc).1 :=
    Finset.union_eq_right.mpr hsubM
  rw [hun] at heq hF
  refine fieldsInv_step_general hk heq hsubM hlenM ?_ ?_ hF
  · by_cases hjv : j ∈ vis
    · rw [hvisM hjv]
      exact ⟨[], by simp, fun i hi hni => absurd hi hni⟩
    · obtain ⟨new, hacc, hmem⟩ := hfreshM hjv
      refine ⟨new ++ [msgText env (getModel env j).1 j], ?_, ?_⟩
      · rw [hacc, List.append_assoc]
      · intro i hi hni
        by_cases hij : i = j
        · subst hij
          refine List.mem_append_right _ ?_
          simp [messageFor]
        · exact List.mem_append_left _ (hmem i hi hni hij)
  · intro j2 hj2
    rw [htgt] at hj2
    injection hj2 with hj3
    subst hj3
    exact hjM
lemma fieldTarget_not_dict {t : PyType} (hnd : ∀ args, t ≠ PyType.dict args) :
    fieldTarget t = (match (unwrap_field t).2 with
      | PyType.model j => some j
      | _ => none) := by
  cases t <;>
    first
      | rfl
      | exact absurd rfl (hnd _)

theorem fieldsInv_all (env : Env) (m0 k0 : Nat) (vis0 : Finset Nat)
    (acc0 fields0 : List String) (idx0 : Nat) :
    FieldsInv env m0 k0 vis0 acc0 fields0 idx0 := by
  refine parse_fields.induct env (ModelInv env) (FieldsInv env)
    ?_ ?_ ?_ ?_ ?_ m0 k0 vis0 acc0 fields0 idx0
  · intro m nm vis acc h
    exact modelInv_of_mem h
  · intro m nm vis acc h hF
    exact modelInv_of_fieldsInv h hF
  · intro m k vis acc fields idx h
    exact fieldsInv_past_end h
  · intro m k vis acc fields idx fd hk
    dsimp only
    intro args hft
    cases hval : (args.getD (PyType.any, PyType.any)).2 with
    | model j =>
        intro IH1a IH1b IH2
        dsimp only at IH2
        refine fieldsInv_step_model hk ?_ (parse_fields_dict_model hk hft hval)
          (IH1a j rfl) ?_
        · rw [hft]
          simp [fieldTarget, hval]
        · convert IH2 using 3
          simp [renderFieldLine, hft, hval]
    | _ =>
        intro IH1a IH1b IH2
        dsimp only at IH2
        have hv2 : ∀ j2, (args.getD (PyType.any, PyType.any)).2 ≠ PyType.model j2 := by
          intro j2 h2
          rw [hval] at h2
          cases h2
        refine fieldsInv_step_plain hk ?_ (parse_fields_dict_plain hk hft hv2) ?_
        · rw [hft]
          simp [fieldTarget, hval]
        · convert IH2 using 3 <;>
            simp [renderFieldLine, hft, hval, Finset.union_self]
  · intro m k vis acc fields idx fd hk
    dsimp only
    cases hval : (unwrap_field fd.2).2 with
    | model j =>
        intro hnd IH1a IH1b IH2
        dsimp only at IH2
        refine fieldsInv_step_model hk ?_
          (parse_fields_plain_model hk hnd hval) (IH1a j rfl) ?_
        · rw [fieldTarget_not_dict hnd, hval]
        · convert IH2 using 3
          rw [renderFieldLine_plain_model hnd hval]
          simp
    | _ =>
        intro hnd IH1a IH1b IH2
        dsimp only at IH2
        have hv2 : ∀ j2, (unwrap_field fd.2).2 ≠ PyType.model j2 := by
          intro j2 h2
          rw [hval] at h2
          cases h2
        refine fieldsInv_step_plain hk ?_
          (parse_fields_plain_other hk hnd hv2) ?_
        · rw [fieldTarget_not_dict hnd, hval]
        · convert IH2 using 3 <;>
            first
              | (rw [renderFieldLine_plain_other hnd hv2, hval]; simp)
              | simp [Finset.union_self]

theorem modelInv_all (env : Env) (m : Nat) (nm : String) (vis : Finset Nat)
    (acc : List String) : ModelInv env m nm vis acc := by
  by_cases h : m ∈ vis
  · exact modelInv_of_mem h
  · exact modelInv_of_fieldsInv h (fieldsInv_all env m 0 (insert m vis) acc [] 1)
lemma fieldLines_drop_cons {env : Env} {m k : Nat} {fd : String × PyType}
    {idx : Nat} (hk : (getModel env m).2.get? k = some fd) :
    fieldLinesFrom env ((getModel env m).2.drop k) idx =
      renderFieldLine env fd.1 fd.2 idx ::
        fieldLinesFrom env ((getModel env m).2.drop (k + 1)) (idx + 1) := by
  have hklen : k < (getModel env m).2.length := by
    by_contra hc
    rw [List.get?_eq_none.mpr (Nat.le_of_not_lt hc)] at hk
    cases hk
  rw [List.drop_eq_getElem_cons hklen]
  have hgd : (getModel env m).2.get? k = some ((getModel env m).2[k]) := by
    rw [List.get?_eq_getElem?, List.getElem?_eq_getElem hklen]
  rw [hgd] at hk
  injection hk with hk2
  rw [hk2]
  rfl

lemma parse_fields_step_guarded {env : Env} {m k : Nat} {vis : Finset Nat}
    {acc fields : List String} {idx : Nat} {fd : String × PyType}
    (hk : (getModel env m).2.get? k = some fd)
    (htarget : ∀ j, fieldTarget fd.2 = some j → j ∈ vis) :
    parse_fields env m k vis acc fields idx =
      parse_fields env m (k + 1) vis acc
        (fields ++ [renderFieldLine env fd.1 fd.2 idx]) (idx + 1) := by
  cases hft : fd.2 with
  | dict args =>
      rw [← hft]
      cases hval : (args.getD (PyType.any, PyType.any)).2 with
      | model j =>
          have hj : j ∈ vis := htarget j (by rw [hft]; simp [fieldTarget, hval])
          rw [parse_fields_dict_model hk hft hval, parse_model_visited hj]
          simp [Finset.union_self]
      | _ =>
          exact parse_fields_dict_plain hk hft
            (by intro j2 h2; rw [hval] at h2; cases h2)
  | _ =>
      rw [← hft]
      have hnd : ∀ a, fd.2 ≠ PyType.dict a := by
        intro a h
        rw [hft] at h
        cases h
      cases hval : (unwrap_field fd.2).2 with
      | model j =>
          have hj : j ∈ vis := htarget j (by rw [fieldTarget_not_dict hnd, hval])
          rw [parse_fields_plain_model hk hnd hval, parse_model_visited hj]
          simp [Finset.union_self]
      | _ =>
          exact parse_fields_plain_other hk hnd
            (by intro j2 h2; rw [hval] at h2; cases h2)

lemma parse_fields_guarded_run {env : Env} {m : Nat} {vis : Finset Nat} :
    ∀ (n k : Nat), (getModel env m).2.length ≤ k + n →
    ∀ {acc fields : List String} {idx : Nat},
    (∀ k2 fd j, (getModel env m).2.get? k2 = some fd →
      fieldTarget fd.2 = some j → j ∈ vis) →
    parse_fields env m k vis acc fields idx =
      (vis, acc, fields ++ fieldLinesFrom env ((getModel env m).2.drop k) idx) := by
  intro n
  induction n with
  | zero =>
      intro k hk acc fields idx ht
      rw [parse_fields_past_end (List.get?_eq_none.mpr (by omega)),
        List.drop_eq_nil_of_le (by omega)]
      simp [fieldLinesFrom]
  | succ n ih =>
      intro k hk acc fields idx ht
      cases hgk : (getModel env m).2.get? k with
      | none =>
          rw [parse_fields_past_end hgk,
            List.drop_eq_nil_of_le (List.get?_eq_none.mp hgk)]
          simp [fieldLinesFrom]
      | some fd =>
          rw [parse_fields_step_guarded hgk (fun j hj => ht k fd j hgk hj),
            ih (k + 1) (by omega) ht, fieldLines_drop_cons hgk,
            List.append_assoc]
          rfl

/-- A model whose every field target is the model itself (or that has no
model target at all) emits exactly its own message: the nested calls hit the
pre-visit mark and return immediately. -/
lemma parse_model_selfref {env : Env} {m : Nat} {nm : String}
    {vis : Finset Nat} {acc : List String}
    (hself : ∀ fd ∈ (getModel env m).2, ∀ j,
      fieldTarget fd.2 = some j → j = m)
    (hm : m ∉ vis) :
    parse_model env m nm vis acc = (insert m vis, acc ++ [msgText env nm m]) := by
  rw [parse_model_not_visited hm]
  have hrun := @parse_fields_guarded_run env m (insert m vis)
    ((getModel env m).2.length) 0 (by omega) acc [] 1
    (by
      intro k2 fd j hg ht
      have : j = m := hself fd (List.get?_mem hg) j ht
      subst this
      exact Finset.mem_insert_self j vis)
  rw [hrun]
  simp [msgText, List.drop_zero]
lemma fieldLinesFrom_get? (env : Env) :
    ∀ (fs : List (String × PyType)) (idx i : Nat),
    (fieldLinesFrom env fs idx).get? i =
      (fs.get? i).map (fun fd => renderFieldLine env fd.1 fd.2 (idx + i)) := by
  intro fs
  induction fs with
  | nil =>
      intro idx i
      simp [fieldLinesFrom]
  | cons f fs ih =>
      intro idx i
      cases i with
      | zero => simp [fieldLinesFrom, List.get?]
      | succ i2 =>
          have harith : idx + 1 + i2 = idx + (i2 + 1) := by omega
          simp only [fieldLinesFrom, List.get?, ih (idx + 1) i2, harith]

lemma protos_core_inv (env : Env) :
    ∀ (models : List Nat) (vis : Finset Nat) (acc : List String),
    vis ⊆ (protos_core env models vis acc).1 ∧
    (protos_core env models vis acc).2.length =
      acc.length + ((protos_core env models vis acc).1 \ vis).card ∧
    (∃ new, (protos_core env models vis acc).2 = acc ++ new ∧
      ∀ i ∈ (protos_core env models vis acc).1, i ∉ vis →
        messageFor env i ∈ new) := by
  intro models
  induction models with
  | nil =>
      intro vis acc
      refine ⟨Finset.Subset.refl _, by simp [protos_core], ?_⟩
      exact ⟨[], by simp [protos_core], fun i hi hni => absurd hi hni⟩
  | cons m rest ih =>
      intro vis acc
      obtain ⟨hsubM, hjM, hlenM, hvisM, hfreshM⟩ :=
        modelInv_all env m (getModel env m).1 vis acc
      obtain ⟨hsub2, hlen2, new2, hacc2, hmem2⟩ :=
        ih (parse_model env m (getModel env m).1 vis acc).1
          (parse_model env m (getModel env m).1 vis acc).2
      have hstep : protos_core env (m :: rest) vis acc =
          protos_core env rest (parse_model env m (getModel env m).1 vis acc).1
            (parse_model env m (getModel env m).1 vis acc).2 := rfl
      rw [hstep]
      refine ⟨hsubM.trans hsub2, ?_, ?_⟩
      · rw [hlen2, hlenM, card_sdiff_chain hsubM hsub2]
        exact Nat.add_assoc _ _ _
      · by_cases hmv : m ∈ vis
        · rw [hvisM hmv] at hacc2 hmem2 hsub2 ⊢
          exact ⟨new2, hacc2, fun i hi hni => hmem2 i hi hni⟩
        · obtain ⟨newM, haccM, hmemM⟩ := hfreshM hmv
          refine ⟨(newM ++ [msgText env (getModel env m).1 m]) ++ new2, ?_, ?_⟩
          · rw [hacc2, haccM]
            simp [List.append_assoc]
          · intro i hi hni
            by_cases hiM : i ∈ (parse_model env m (getModel env m).1 vis acc).1
            · refine List.mem_append_left _ ?_
              by_cases him : i = m
              · subst him
                exact List.mem_append_right _ (by simp [messageFor])
              · exact List.mem_append_left _ (hmemM i hiM hni him)
            · exact List.mem_append_right _ (hmem2 i hi hiM)

/-! Concrete environments used by the claim theorems. -/

/-- The two-integer-field type of spec scenario 1. -/
def envPoint : Env := [("Point", [("x", PyType.int), ("y", PyType.int)])]

/-- The self-referential type of spec scenario 2:
Node with fields value: int and children: Optional[List[Node]]. -/
def envNode : Env :=
  [("Node", [("value", PyType.int),
    ("children", PyType.union [PyType.list (PyType.model 0), PyType.noneT])])]

/-- The map scenario of the spec: Box with a field items: Dict[str, Item],
where Item has one field name: str. -/
def envBox : Env :=
  [("Box", [("items", PyType.dict (some (PyType.str, PyType.model 1)))]),
   ("Item", [("name", PyType.str)])]

/-- A model M with a byte-sequence map key, field d: Dict[bytes, int]. -/
def envBytesKey : Env :=
  [("M", [("d", PyType.dict (some (PyType.bytes, PyType.int)))])]

lemma point_eval : pydantic_models_to_protos envPoint [0] none =
    "message Point \x7b\n    int32 x = 1;;\n    int32 y = 2;;\n\x7d\n" := by
  simp [pydantic_models_to_protos, protos_core, initial_visited, parse_model,
    parse_fields, getModel, List.get?, renderFieldLine, unwrap_field,
    map_type, map_scalar_type, isScalarLit, isNoneType, pyStrip, msgText,
    messageFor, fieldLinesFrom, String.join, String.intercalate, Option.getD]
  decide

/-- C1, counterexample: for the structured type Point with integer fields
x and y, `generate([Point])` does NOT return the text
`message Point \x7b\n    int32 x = 1;\n    int32 y = 2;\n\x7d\n` claimed by
the spec: each field line the code builds already ends in a semicolon, and
the message assembler appends a second one. -/
theorem spec_C1_counterexample :
    pydantic_models_to_protos envPoint [0] none ≠
      "message Point \x7b\n    int32 x = 1;\n    int32 y = 2;\n\x7d\n" := by
  rw [point_eval]
  decide

/-- C1, amended: for the structured type Point with exactly two integer
fields x and y, in that order, `generate([Point])` returns exactly the text
`message Point \x7b\n    int32 x = 1;;\n    int32 y = 2;;\n\x7d\n` — each
field line rendered as `WireOrTypeName name = idx;;`, with a double
semicolon, one from the field line and one from the message assembler. -/
theorem spec_C1 :
    pydantic_models_to_protos envPoint [0] none =
      "message Point \x7b\n    int32 x = 1;;\n    int32 y = 2;;\n\x7d\n" :=
  point_eval

lemma node_eval : pydantic_models_to_protos envNode [0] none =
    "message Node \x7b\n    int32 value = 1;;\n    string children = 2;;\n\x7d\n" := by
  simp [pydantic_models_to_protos, protos_core, initial_visited, parse_model,
    parse_fields, getModel, List.get?, renderFieldLine, unwrap_field,
    map_type, map_scalar_type, isScalarLit, isNoneType, pyStrip, msgText,
    messageFor, fieldLinesFrom, String.join, String.intercalate, Option.getD]
  decide

/-- C2, counterexample: for the self-referential type Node with fields
value: int and children: Optional[List[Node]], `generate([Node])` does NOT
yield `message Node \x7b\n    int32 value = 1;\n    repeated Node children = 2;\n\x7d\n`
as the spec claims: the Optional branch strips NoneType and leaves
List[Node] as the effective type, the List branch is an elif of the same
chain and never runs, and List[Node] is not a model, so the field falls back
to `string`, unrepeated, and Node is never referenced. -/
theorem spec_C2_counterexample :
    pydantic_models_to_protos envNode [0] none ≠
      "message Node \x7b\n    int32 value = 1;\n    repeated Node children = 2;\n\x7d\n" := by
  rw [node_eval]
  decide

/-- C2, amended: for the self-referential type Node with fields value: int
and children: Optional[List[Node]], `generate([Node])` yields the single
message `message Node \x7b\n    int32 value = 1;;\n    string children = 2;;\n\x7d\n`:
the optional wrapper is stripped, but the remaining List wrapper is not
unwrapped (sequence handling is an elif skipped once the optional branch
fired), the leftover List[Node] is not recognized as a model and falls back
to the `string` wire type with no repeated keyword, and every field line
carries the assembler's second semicolon. -/
theorem spec_C2 :
    pydantic_models_to_protos envNode [0] none =
      "message Node \x7b\n    int32 value = 1;;\n    string children = 2;;\n\x7d\n" :=
  node_eval

/-- The membership test `key_type in (int, float, str, bool)` guarding the
scalar-table lookup for a map key in the dict branch of `parse_model`. -/
def isMapKeyScalar : PyType → Bool
  | .int | .float | .str | .bool => true
  | _ => false

lemma box_eval : pydantic_models_to_protos envBox [0] none =
    "message Box \x7b\n    map<string, Item> items = 1;;\n\x7d\n\nmessage Item \x7b\n    string name = 1;;\n\x7d\n" := by
  simp [pydantic_models_to_protos, protos_core, initial_visited, parse_model,
    parse_fields, getModel, List.get?, renderFieldLine, unwrap_field,
    map_type, map_scalar_type, isScalarLit, isNoneType, pyStrip, msgText,
    messageFor, fieldLinesFrom, String.join, String.intercalate, Option.getD]
  decide

lemma bytes_key_eval : pydantic_models_to_protos envBytesKey [0] none =
    "message M \x7b\n    map<string, int32> d = 1;;\n\x7d\n" := by
  simp [pydantic_models_to_protos, protos_core, initial_visited, parse_model,
    parse_fields, getModel, List.get?, renderFieldLine, unwrap_field,
    map_type, map_scalar_type, isScalarLit, isNoneType, pyStrip, msgText,
    messageFor, fieldLinesFrom, String.join, String.intercalate, Option.getD]
  decide

/-- C3, counterexample: a field declared as Dict[bytes, int] renders its key
as `string`, not `bytes`: the key lookup is guarded by membership in
(int, float, str, bool), which excludes the byte-sequence type, so the spec's
claim that a byte-sequence key renders `bytes` is false (and the rendered
line also ends in a double semicolon rather than the claimed single one). -/
theorem spec_C3_counterexample :
    pydantic_models_to_protos envBytesKey [0] none ≠
      "message M \x7b\n    map<bytes, int32> d = 1;\n\x7d\n" := by
  rw [bytes_key_eval]
  decide

/-- C3, amended: for every field declared as a mapping, the key's wire name
is resolved through the scalar table only for keys in (int, float, str,
bool); every other key — including the byte-sequence type — falls back to
`string`.  The value resolves to a structured type's own name or through
`map_type`; the field renders as `map<KeyWire, ValueWire> name = idx;` with
the assembler appending a second semicolon, bypassing the repeated/plain
branches.  When the value type is structured, its message is emitted before
the map field's owner: Box renders before Item with the field line
`map<string, Item> items = 1;;`. -/
theorem spec_C3 :
    (∀ (env : Env) (fn : String) (kt vt : PyType) (idx : Nat),
      renderFieldLine env fn (PyType.dict (some (kt, vt))) idx =
        "map<" ++ (if isMapKeyScalar kt then map_scalar_type kt else "string") ++
          ", " ++ map_type env vt ++ "> " ++ fn ++ " = " ++
          toString idx ++ ";") ∧
    pydantic_models_to_protos envBox [0] none =
      "message Box \x7b\n    map<string, Item> items = 1;;\n\x7d\n\nmessage Item \x7b\n    string name = 1;;\n\x7d\n" ∧
    pydantic_models_to_protos envBytesKey [0] none =
      "message M \x7b\n    map<string, int32> d = 1;;\n\x7d\n" := by
  refine ⟨?_, box_eval, bytes_key_eval⟩
  intro env fn kt vt idx
  cases kt <;> cases vt <;> rfl

/-- A self-referential model: L with field next: L. -/
def envSelf : Env := [("L", [("next", PyType.model 0)])]

lemma self_eval : pydantic_models_to_protos envSelf [0] none =
    "message L \x7b\n    L next = 1;;\n\x7d\n" := by
  simp [pydantic_models_to_protos, protos_core, initial_visited, parse_model,
    parse_fields, getModel, List.get?, renderFieldLine, unwrap_field,
    map_type, map_scalar_type, isScalarLit, isNoneType, pyStrip, msgText,
    messageFor, fieldLinesFrom, String.join, String.intercalate, Option.getD]
  decide

/-- C4: generation terminates on every type graph (the embedding is a total
function, accepted by the termination checker on the measure of unvisited
handles); `parse_model` returns immediately for a handle already in the
visited set; otherwise it inserts the handle before processing any field,
the visited set only grows, and the accumulator grows by exactly one message
per newly visited handle, so each distinct handle produces at most one
message per invocation; and a self-referential model — every field target
resolving to the model itself — yields exactly one message, referencing
itself by name, as the concrete model L with field next: L shows. -/
theorem spec_C4 (env : Env) (m : Nat) (nm : String) (vis : Finset Nat)
    (acc : List String)
    (hself : ∀ fd ∈ (getModel env m).2, ∀ j,
      fieldTarget fd.2 = some j → j = m)
    (hm : m ∉ vis) :
    (∀ m2 nm2 vis2 acc2, m2 ∈ vis2 →
      parse_model env m2 nm2 vis2 acc2 = (vis2, acc2)) ∧
    (∀ m2 nm2 vis2 acc2,
      vis2 ⊆ (parse_model env m2 nm2 vis2 acc2).1 ∧
      (parse_model env m2 nm2 vis2 acc2).2.length =
        acc2.length + ((parse_model env m2 nm2 vis2 acc2).1 \ vis2).card) ∧
    parse_model env m nm vis acc = (insert m vis, acc ++ [msgText env nm m]) ∧
    pydantic_models_to_protos envSelf [0] none =
      "message L \x7b\n    L next = 1;;\n\x7d\n" := by
  refine ⟨?_, ?_, parse_model_selfref hself hm, self_eval⟩
  · intro m2 nm2 vis2 acc2 h
    exact parse_model_visited h
  · intro m2 nm2 vis2 acc2
    obtain ⟨hsub, _, hlen, _, _⟩ := modelInv_all env m2 nm2 vis2 acc2
    exact ⟨hsub, hlen⟩

/-- C4 witness: the theorem applied to the concrete self-referential model L
with field next: L, starting from an empty visited set. -/
theorem spec_C4_witness :
    parse_model envSelf 0 "L" ∅ [] =
      (insert 0 ∅, [] ++ [msgText envSelf "L" 0]) :=
  (spec_C4 envSelf 0 "L" ∅ []
    (by
      intro fd hfd j ht
      simp only [envSelf, getModel, List.get?, List.mem_singleton] at hfd
      subst hfd
      simp [fieldTarget, unwrap_field] at ht
      omega)
    (Finset.not_mem_empty 0)).2.2.1

/-- C5: in every emitted message with n fields the field indices are exactly
1..n in field-extraction order: a fresh `parse_model` call appends exactly
the message text built from `fieldLinesFrom`, and the i-th line of
`fieldLinesFrom` starting at 1 is the i-th field rendered with index i+1,
for every field kind — the counter advances by exactly one per field. -/
theorem spec_C5 (env : Env) (m : Nat) (nm : String) (vis : Finset Nat)
    (acc : List String) (hm : m ∉ vis) :
    (∃ mid, (parse_model env m nm vis acc).2 =
      acc ++ mid ++ [msgText env nm m]) ∧
    ∀ i : Nat, (fieldLinesFrom env (getModel env m).2 1).get? i =
      ((getModel env m).2.get? i).map
        (fun fd => renderFieldLine env fd.1 fd.2 (i + 1)) := by
  constructor
  · obtain ⟨_, _, _, _, hfresh⟩ := modelInv_all env m nm vis acc
    obtain ⟨new, hacc, _⟩ := hfresh hm
    exact ⟨new, hacc⟩
  · intro i
    rw [fieldLinesFrom_get? env _ 1 i]
    have harith : 1 + i = i + 1 := by omega
    rw [harith]

/-- C5 witness: the theorem applied to the Point model with empty visited
set. -/
theorem spec_C5_witness :
    (∃ mid, (parse_model envPoint 0 "Point" ∅ []).2 =
      [] ++ mid ++ [msgText envPoint "Point" 0]) ∧
    ∀ i : Nat, (fieldLinesFrom envPoint (getModel envPoint 0).2 1).get? i =
      ((getModel envPoint 0).2.get? i).map
        (fun fd => renderFieldLine envPoint fd.1 fd.2 (i + 1)) :=
  spec_C5 envPoint 0 "Point" ∅ [] (Finset.not_mem_empty 0)

/-- C6: when generate([A, B]) runs in one invocation and some field of A
targets B as a structured type, A's message text appears before B's in the
returned schema: B's message is appended to the accumulator while A's fields
are processed, A's own message is appended after its fields, the second
top-level call on B hits the visited set, and the accumulator is reversed
before joining — so the output message list starts with A's message and
contains B's message later. -/
theorem spec_C6 (env : Env) (A B : Nat) (hAB : A ≠ B)
    (hfield : ∃ fd ∈ (getModel env A).2, fieldTarget fd.2 = some B) :
    ∃ msgs, (protos_core env [A, B] ∅ []).2.reverse =
        messageFor env A :: msgs ∧
      messageFor env B ∈ msgs ∧
      pydantic_models_to_protos env [A, B] none =
        String.intercalate "\n" (messageFor env A :: msgs) := by
  obtain ⟨fd, hfd, htg⟩ := hfield
  obtain ⟨kA, hkA⟩ := List.get?_of_mem hfd
  have hA0 : A ∉ (∅ : Finset Nat) := Finset.not_mem_empty A
  have hrA := @parse_model_not_visited env A (getModel env A).1 ∅ [] hA0
  obtain ⟨_, _, _, _, htgtF⟩ :=
    fieldsInv_all env A 0 (insert A ∅) [] [] 1
  have hBF : B ∈ (parse_fields env A 0 (insert A ∅) [] [] 1).1 :=
    htgtF kA fd B (Nat.zero_le kA) hkA htg
  have hBr1 : B ∈ (parse_model env A (getModel env A).1 ∅ []).1 := by
    rw [hrA]
    exact hBF
  obtain ⟨_, _, _, _, hfresh⟩ :=
    modelInv_all env A (getModel env A).1 ∅ []
  obtain ⟨new, hacc, hmem⟩ := hfresh hA0
  have hBnew : messageFor env B ∈ new :=
    hmem B hBr1 (Finset.not_mem_empty B) (Ne.symm hAB)
  have hcore : protos_core env [A, B] ∅ [] =
      ((parse_model env A (getModel env A).1 ∅ []).1,
        (parse_model env A (getModel env A).1 ∅ []).2) := by
    simp [protos_core, parse_model_visited hBr1]
  refine ⟨new.reverse, ?_, List.mem_reverse.mpr hBnew, ?_⟩
  · rw [hcore]
    dsimp only
    rw [hacc]
    simp [messageFor]
  · unfold pydantic_models_to_protos
    have h0 : initial_visited none = (∅ : Finset Nat) := rfl
    rw [h0, hcore]
    dsimp only
    rw [hacc]
    simp [messageFor]

/-- The pair used as the C6 witness: A with field b: B, and a field-less B. -/
def envAB : Env := [("A", [("b", PyType.model 1)]), ("B", [])]

/-- C6 witness: the theorem applied to envAB, where A (handle 0) has the
field b targeting B (handle 1). -/
theorem spec_C6_witness :
    ∃ msgs, (protos_core envAB [0, 1] ∅ []).2.reverse =
        messageFor envAB 0 :: msgs ∧
      messageFor envAB 1 ∈ msgs ∧
      pydantic_models_to_protos envAB [0, 1] none =
        String.intercalate "\n" (messageFor envAB 0 :: msgs) :=
  spec_C6 envAB 0 1 (by omega)
    ⟨("b", PyType.model 1), by simp [envAB, getModel, List.get?],
      by simp [fieldTarget, unwrap_field]⟩

/-- C7: for every type T, generate([T], already_visited=\x7bT\x7d) returns
the empty schema text: the non-empty seed set survives the truthiness check,
the single emission call returns at the visited guard, and joining the empty
reversed accumulator yields the empty string. -/
theorem spec_C7 (env : Env) (T : Nat) :
    pydantic_models_to_protos env [T] (some {T}) = "" := by
  unfold pydantic_models_to_protos
  have h0 : initial_visited (some ({T} : Finset Nat)) = {T} := by
    simp [initial_visited]
  rw [h0]
  have hcore : protos_core env [T] {T} [] = ({T}, []) := by
    simp [protos_core, parse_model_visited (Finset.mem_singleton_self T)]
  rw [hcore]
  rfl

/-- C8: the scalar mapper is total with exactly the table int to int32,
float to float, str to string, bool to bool, bytes to bytes, Any to string;
every key outside the table falls back to string; `map_type` sends every
type that is neither a scalar literal nor a model to the universal fallback
string, and a model to its own name. -/
theorem spec_C8 :
    map_scalar_type PyType.int = "int32" ∧
    map_scalar_type PyType.float = "float" ∧
    map_scalar_type PyType.str = "string" ∧
    map_scalar_type PyType.bool = "bool" ∧
    map_scalar_type PyType.bytes = "bytes" ∧
    map_scalar_type PyType.any = "string" ∧
    (∀ t, isScalarLit t = false → map_scalar_type t = "string") ∧
    (∀ (env : Env) (t : PyType), isScalarLit t = false →
      is_model t = false → map_type env t = "string") ∧
    (∀ (env : Env) (j : Nat),
      map_type env (PyType.model j) = (getModel env j).1) := by
  refine ⟨rfl, rfl, rfl, rfl, rfl, rfl, ?_, ?_, ?_⟩
  · intro t h
    cases t <;> simp_all [map_scalar_type, isScalarLit]
  · intro env t h1 h2
    cases t <;> simp_all [map_type, isScalarLit, is_model]
  · intro env j
    rfl

/-- C8 witness: the fallback and model clauses of the theorem applied at
concrete types. -/
theorem spec_C8_witness :
    map_scalar_type (PyType.other 0) = "string" ∧
    map_type [] (PyType.list PyType.int) = "string" ∧
    map_type [("M", [])] (PyType.model 0) = "M" :=
  ⟨spec_C8.2.2.2.2.2.2.1 (PyType.other 0) rfl,
   spec_C8.2.2.2.2.2.2.2.1 [] (PyType.list PyType.int) rfl rfl,
   by rw [spec_C8.2.2.2.2.2.2.2.2 [("M", [])] 0]; rfl⟩

/-- A model exercising every lenient path: an unrecognized type, NoneType,
a union without NoneType, a dict with empty argument tuple, and a nested
list. -/
def envWeird : Env :=
  [("W", [("a", PyType.other 7), ("b", PyType.noneT),
    ("c", PyType.union [PyType.int, PyType.str]),
    ("d", PyType.dict none),
    ("e", PyType.list (PyType.list PyType.int))])]

lemma weird_eval : pydantic_models_to_protos envWeird [0] none =
    "message W \x7b\n    string a = 1;;\n    string b = 2;;\n    string c = 3;;\n    map<string, string> d = 4;;\n    repeated string e = 5;;\n\x7d\n" := by
  simp [pydantic_models_to_protos, protos_core, initial_visited, parse_model,
    parse_fields, getModel, List.get?, renderFieldLine, unwrap_field,
    map_type, map_scalar_type, isScalarLit, isNoneType, pyStrip, msgText,
    messageFor, fieldLinesFrom, String.join, String.intercalate, Option.getD]
  decide

/-- C9: generation never fails — the embedding is a total function on every
environment and model list; every type that is neither a scalar literal nor
a model maps to the fallback string; a field-less model emits an empty
message rather than an error; and an environment full of unrecognized,
malformed and oddly-shaped types still yields a syntactically well-formed
schema text. -/
theorem spec_C9 (env : Env) :
    (∀ t, isScalarLit t = false → is_model t = false →
      map_type env t = "string") ∧
    (∀ (m : Nat) (nm : String) (vis : Finset Nat) (acc : List String),
      m ∉ vis → (getModel env m).2 = [] →
      parse_model env m nm vis acc =
        (insert m vis, acc ++ ["message " ++ nm ++ " \x7b\n" ++ "\x7d\n"])) ∧
    pydantic_models_to_protos envWeird [0] none =
      "message W \x7b\n    string a = 1;;\n    string b = 2;;\n    string c = 3;;\n    map<string, string> d = 4;;\n    repeated string e = 5;;\n\x7d\n" := by
  refine ⟨?_, ?_, weird_eval⟩
  · intro t h1 h2
    cases t <;> simp_all [map_type, isScalarLit, is_model]
  · intro m nm vis acc hm hfl
    rw [parse_model_not_visited hm,
      parse_fields_past_end (by rw [hfl]; rfl)]
    simp [String.join]

/-- C9 witness: the fallback clause at an unrecognized type and the
empty-message clause at a field-less model. -/
theorem spec_C9_witness :
    map_type [] (PyType.other 3) = "string" ∧
    parse_model [("E", [])] 0 "E" ∅ [] =
      (insert 0 ∅, [] ++ ["message " ++ "E" ++ " \x7b\n" ++ "\x7d\n"]) :=
  ⟨(spec_C9 []).1 (PyType.other 3) rfl rfl,
   (spec_C9 [("E", [])]).2.1 0 "E" ∅ [] (Finset.not_mem_empty 0) rfl⟩

/-- C10: a non-empty caller-supplied already_visited set is aliased — after
the call the caller's set is the invocation's final visited set, which
contains the seed and gained exactly one handle per emitted message, and
every newly visited handle's message is in the returned accumulator; an
empty caller-supplied set is falsy, replaced by a fresh set, and left
unchanged. -/
theorem spec_C10 (env : Env) (models : List Nat) (s : Finset Nat) :
    (s ≠ ∅ →
      caller_visited_after env models s = (protos_core env models s []).1 ∧
      s ⊆ caller_visited_after env models s ∧
      (protos_core env models s []).2.length =
        ((protos_core env models s []).1 \ s).card ∧
      (∀ i ∈ (protos_core env models s []).1, i ∉ s →
        messageFor env i ∈ (protos_core env models s []).2)) ∧
    (s = ∅ → caller_visited_after env models s = s) := by
  constructor
  · intro hs
    have hc : caller_visited_after env models s =
        (protos_core env models s []).1 := by
      unfold caller_visited_after
      rw [if_neg hs]
    obtain ⟨hsub, hlen, new, hacc, hmem⟩ := protos_core_inv env models s []
    have hacc2 : (protos_core env models s []).2 = new := by
      simpa using hacc
    refine ⟨hc, hc ▸ hsub, by simpa using hlen, ?_⟩
    intro i hi hni
    rw [hacc2]
    exact hmem i hi hni
  · intro hs
    unfold caller_visited_after
    rw [if_pos hs]

/-- C10 witness: the theorem applied with the non-empty seed set containing
only the handle 5 and with the empty seed set, over the Point model. -/
theorem spec_C10_witness :
    (caller_visited_after envPoint [0] {5} =
        (protos_core envPoint [0] {5} []).1 ∧
      ({5} : Finset Nat) ⊆ caller_visited_after envPoint [0] {5} ∧
      (protos_core envPoint [0] {5} []).2.length =
        ((protos_core envPoint [0] {5} []).1 \ {5}).card ∧
      (∀ i ∈ (protos_core envPoint [0] {5} []).1,
        i ∉ ({5} : Finset Nat) →
        messageFor envPoint i ∈ (protos_core envPoint [0] {5} []).2)) ∧
    caller_visited_after envPoint [0] ∅ = ∅ :=
  ⟨(spec_C10 envPoint [0] {5}).1 (Finset.singleton_ne_empty 5),
   (spec_C10 envPoint [0] ∅).2 rfl⟩
